import Mathlib

/-!
Verification of the Sat-Analysis echo/pass pipeline (`parselog.py`).

Timestamps are modelled as integer seconds (all timestamps in the logs have
second resolution, so `datetime` subtraction and `total_seconds()` are exact
integers).  Frequencies and other float-valued log fields are modelled as
rationals; every arithmetic operation the verified claims touch is exact in
double precision at the magnitudes involved, so the rational model is faithful.
Durations: tolerance 1 s, match threshold 5 s, maximum gap 1800 s, pass margin
600 s, as in the constants at the top of `parselog.py`.
-/

namespace SatAnalysis

/-- Character-list prefix test, used to model Python's substring operator. -/
def prefChars : List Char → List Char → Bool
  | [], _ => true
  | _ :: _, [] => false
  | a :: as, b :: bs => a == b && prefChars as bs

/-- `hasSub pat s` models Python's `pat in s` substring containment. -/
def hasSub (pat : List Char) : List Char → Bool
  | [] => pat.isEmpty
  | c :: cs => prefChars pat (c :: cs) || hasSub pat cs

/-- Stable insertion by an integer key: the new element goes before the first
existing element with a key `≥` its own. -/
def insertBy {α : Type} (key : α → Int) (a : α) : List α → List α
  | [] => [a]
  | x :: xs => if key a ≤ key x then a :: x :: xs else x :: insertBy key a xs

/-- Stable sort by an integer key.  Python's `sorted`/`list.sort` are stable,
and a stable sort's output is uniquely determined by the key order, so this
insertion sort is observationally identical to Python's sort. -/
def sortBy {α : Type} (key : α → Int) : List α → List α
  | [] => []
  | x :: xs => insertBy key x (sortBy key xs)

/-- Python's `round` applied to `s / 2` for an integer `s` (the only use of
`round` in the verified code path).  `s / 2` is exact in double precision, so
the result is `s / 2` when `s` is even, and otherwise the even one of the two
neighbouring integers (banker's rounding, round-half-to-even). -/
def pyRoundHalf (s : Int) : Int :=
  if s % 2 = 0 then s / 2
  else if (s - 1) / 2 % 2 = 0 then (s - 1) / 2 else (s + 1) / 2

/-- A parsed WSJT-X log entry (`parse_wsjt_line` output), already filtered to
a single direction by `load_wsjt_entries`. -/
structure WsjtEntry where
  ts : Int
  ts_str : String
  freq : ℚ
  mode : String
  snr : Int
  dt : ℚ
  f : Int
  msg : String
  deriving Repr, DecidableEq

/-- A parsed Pycom telemetry sample (`parse_pycom_log` output). -/
structure PycomEntry where
  ts : Int
  sat : String
  az : ℚ
  el : ℚ
  range_km : ℚ
  main : Int
  sub : Int
  dop_up : Int
  dop_down : Int
  dop_up_rate : Int
  dop_down_rate : Int
  offset : Int
  rit : String
  rit_freq : Int
  deriving Repr, DecidableEq

/-- An echo record as built by `find_echoes`. -/
structure Echo where
  ts : Int
  ts_str : String
  tx_freq : ℚ
  tx_offset : Int
  rx_freq : ℚ
  rx_offset : Int
  dt : ℚ
  snr : Int
  message : String
  deriving Repr, DecidableEq

/-- The match condition of the inner loop of `find_echoes` (the negation of
its `continue` guard): same mode, same message, `|Δt| ≤ 1` second, different
frequency, and the reception message contains the marker `M0SNZ`. -/
def echoCond (tx rx : WsjtEntry) : Bool :=
  rx.mode == tx.mode &&
  rx.msg == tx.msg &&
  |rx.ts - tx.ts| ≤ 1 &&
  !(rx.freq == tx.freq) &&
  hasSub "M0SNZ".data rx.msg.data

/-- The echo dictionary appended by `find_echoes` for a matching pair. -/
def mkEcho (tx rx : WsjtEntry) : Echo :=
  { ts := tx.ts
    ts_str := tx.ts_str
    tx_freq := tx.freq
    tx_offset := tx.f
    rx_freq := rx.freq
    rx_offset := rx.f
    dt := rx.dt
    snr := rx.snr
    message := tx.msg }

/-- The echo contributed by one transmission: the first reception record in
list order satisfying `echoCond` (the inner `for`/`break` of `find_echoes`). -/
def echoFor (tx : WsjtEntry) (rxs : List WsjtEntry) : Option Echo :=
  (rxs.find? (fun rx => echoCond tx rx)).map (mkEcho tx)

/-- `find_echoes`: one optional echo per transmission, then a stable sort
ascending by timestamp. -/
def find_echoes (txs rxs : List WsjtEntry) : List Echo :=
  sortBy (fun e => e.ts) (txs.filterMap (fun tx => echoFor tx rxs))

/-- First-minimum selection of Python's `min(entries, key=...)`: a later
element replaces the current best only when its key is strictly smaller. -/
def argminAbs (t : Int) : List PycomEntry → Option PycomEntry
  | [] => none
  | p :: ps =>
    match argminAbs t ps with
    | none => some p
    | some q => if |q.ts - t| < |p.ts - t| then some q else some p

/-- `match_echo_to_pycom`: nearest telemetry sample by absolute time
difference, returned with its difference only when that difference is
strictly below the 5-second threshold. -/
def match_echo_to_pycom (echo : Echo) (entries : List PycomEntry) :
    Option (PycomEntry × Int) :=
  match argminAbs echo.ts entries with
  | none => none
  | some c => if |c.ts - echo.ts| < 5 then some (c, |c.ts - echo.ts|) else none

/-- One element of the combined list built in `main`: the echo, plus the
telemetry sample and time difference when `match_echo_to_pycom` found one
(the dict keys `pycom` and `time_diff` are present together or not at all). -/
structure Combined where
  echo : Echo
  pycom : Option (PycomEntry × Int)
  deriving Repr, DecidableEq

/-- The continuation condition of `group_by_pass` for a consecutive pair:
when both carry telemetry, same satellite and gap `≤ 30` minutes; otherwise
gap `≤ 30` minutes alone. -/
def continuesPass (prev curr : Combined) : Bool :=
  let gapOk : Bool := decide (curr.echo.ts - prev.echo.ts ≤ 1800)
  match prev.pycom, curr.pycom with
  | some (pp, _), some (cp, _) => (pp.sat == cp.sat) && gapOk
  | _, _ => gapOk

/-- The loop of `group_by_pass`: `prev` is the previously processed echo,
`acc` the current pass accumulator in reverse order. -/
def groupGo (prev : Combined) (acc : List Combined) :
    List Combined → List (List Combined)
  | [] => [acc.reverse]
  | c :: rest =>
    if continuesPass prev c then groupGo c (c :: acc) rest
    else acc.reverse :: groupGo c [c] rest

/-- `group_by_pass`: segment the combined echo list into passes. -/
def group_by_pass : List Combined → List (List Combined)
  | [] => []
  | x :: xs => groupGo x [x] xs

/-- The telemetry-bearing members of a pass (`valid_items`). -/
def valid_items (g : List Combined) : List Combined :=
  g.filter (fun item => item.pycom.isSome)

/-- `item['pycom']['main'] + item['echo']['rx_offset'] + item['pycom']['sub']
- item['echo']['tx_offset']`, the per-item drift used for `min_drift` and
`max_drift` in `calculate_pass_stats`.  Only ever applied to telemetry-bearing
items; the `none` branch mirrors the fact that Python would not reach it. -/
def itemDrift (it : Combined) : Int :=
  match it.pycom with
  | some (p, _) => p.main + it.echo.rx_offset + p.sub - it.echo.tx_offset
  | none => 0

/-- The `main + sub` total tuned frequency of a telemetry-bearing item. -/
def itemTotalFreq (it : Combined) : Int :=
  match it.pycom with
  | some (p, _) => p.main + p.sub
  | none => 0

/-- Minimum of a nonempty integer list, as `np.min` on `head :: tail`. -/
def listMin (x : Int) (xs : List Int) : Int := xs.foldl min x

/-- Maximum of a nonempty integer list, as `np.max` on `head :: tail`. -/
def listMax (x : Int) (xs : List Int) : Int := xs.foldl max x

/-- The result dictionary of `calculate_pass_stats`.  The three constructors
are the three dictionary shapes the function returns: `{}` for an empty group,
the minimal no-satellite-data record, and the full statistics record.  Of the
full record we model the exactly-computed integer aggregates; the remaining
display fields (means and standard deviations produced through NumPy floating
point and decimal rounding) are not consulted by any verified property. -/
inductive PassStats where
  | empty : PassStats
  | minimal (num_echoes : Nat) (note : String) (center_drift : Int) : PassStats
  | full (num_echoes num_with_sat : Nat)
      (snr_min_db snr_max_db : Int)
      (total_freq_min_hz total_freq_max_hz : Int)
      (center_drift : Int) : PassStats
  deriving Repr, DecidableEq

/-- `stats['center_drift']`.  `main` only looks the key up on the minimal and
full shapes (a pass group is never empty); `0` on `empty` is a placeholder for
Python's `KeyError` on `{}`. -/
def PassStats.center_drift : PassStats → Int
  | .empty => 0
  | .minimal _ _ c => c
  | .full _ _ _ _ _ _ c => c

/-- `calculate_pass_stats`: empty dict for an empty group; the minimal record
when no member carries telemetry; otherwise the statistics record with
`center_drift` computed from the first and last telemetry-bearing members. -/
def calculate_pass_stats (g : List Combined) : PassStats :=
  match g with
  | [] => .empty
  | _ :: _ =>
    match valid_items g with
    | [] => .minimal g.length "No satellite data available" 0
    | v0 :: vs =>
      let vl := (v0 :: vs).getLast (List.cons_ne_nil v0 vs)
      let snrs := (v0 :: vs).map (fun it => it.echo.snr)
      let totals := (v0 :: vs).map itemTotalFreq
      let min_drift := itemDrift v0
      let max_drift := itemDrift vl
      .full g.length (v0 :: vs).length
        (listMin snrs.head! snrs.tail) (listMax snrs.head! snrs.tail)
        (listMin totals.head! totals.tail) (listMax totals.head! totals.tail)
        (pyRoundHalf (min_drift + max_drift))

/-- One tuple of the `track_points` comprehension of
`extract_full_pass_track`: `(az, max(el, 0), range_km, main, sub, dop_up,
dop_down)`. -/
structure TrackPoint where
  az : ℚ
  el : ℚ
  range_km : ℚ
  main : Int
  sub : Int
  dop_up : Int
  dop_down : Int
  deriving Repr, DecidableEq

/-- Build a track point from a telemetry sample, clipping negative elevation
to zero. -/
def clipPoint (p : PycomEntry) : TrackPoint :=
  { az := p.az
    el := max p.el 0
    range_km := p.range_km
    main := p.main
    sub := p.sub
    dop_up := p.dop_up
    dop_down := p.dop_down }

/-- The satellite name of a telemetry-bearing item (`item['pycom']['sat']`);
only applied to items whose telemetry is present. -/
def itemSat (it : Combined) : String :=
  match it.pycom with
  | some (p, _) => p.sat
  | none => ""

/-- `extract_full_pass_track`: sort the telemetry-bearing members by echo
timestamp, take the first member's satellite, widen the first-to-last echo
interval by the 10-minute margin on each side, keep the telemetry samples of
that satellite inside the closed window (clipping negative elevations), and
return them with the window anchors — `none` when no member carries telemetry
or fewer than two points survive. -/
def extract_full_pass_track (g : List Combined) (allPycom : List PycomEntry) :
    Option (List TrackPoint × Int × Int × String) :=
  match sortBy (fun it => it.echo.ts) (valid_items g) with
  | [] => none
  | v0 :: vs =>
    let sat_name := itemSat v0
    let start_echo := v0.echo.ts
    let end_echo := ((v0 :: vs).getLast (List.cons_ne_nil v0 vs)).echo.ts
    let window_start := start_echo - 600
    let window_end := end_echo + 600
    let track_points :=
      (allPycom.filter (fun p =>
        p.sat == sat_name &&
        decide (window_start ≤ p.ts) && decide (p.ts ≤ window_end))).map clipPoint
    if track_points.length < 2 then none
    else some (track_points, start_echo, end_echo, sat_name)

/-- One CSV data row written by `export_pass` (and echoed to the console by
`main`): the 24 column values, with formatted numeric cells modelled by the
numbers being formatted. -/
structure CsvRow where
  ts_str : String
  tx_offset : Int
  rx_offset : Int
  offset_delta : Int
  message : String
  snr : Int
  dt : ℚ
  sat : String
  az : ℚ
  el : ℚ
  range_km : ℚ
  main : Int
  sub : Int
  main_plus_sub : Int
  dop_up : Int
  dop_down : Int
  tuning_offset : Int
  rit : String
  rit_freq : Int
  time_diff : Int
  drift : Int
  residual_doppler : Int
  dop_up_rate : Int
  dop_down_rate : Int
  deriving Repr, DecidableEq

/-- The row `export_pass` writes for a telemetry-bearing item, given the
pass's `center_drift`. -/
def mkRow (center_drift : Int) (e : Echo) (p : PycomEntry) (td : Int) : CsvRow :=
  let offset_delta := e.tx_offset - e.rx_offset
  let drift := p.main + e.rx_offset + p.sub - e.tx_offset - center_drift
  let rd := drift - p.dop_up - p.dop_down
  { ts_str := e.ts_str
    tx_offset := e.tx_offset
    rx_offset := e.rx_offset
    offset_delta := offset_delta
    message := e.message
    snr := e.snr
    dt := e.dt
    sat := p.sat
    az := p.az
    el := p.el
    range_km := p.range_km
    main := p.main
    sub := p.sub
    main_plus_sub := p.main + p.sub
    dop_up := p.dop_up
    dop_down := p.dop_down
    tuning_offset := p.offset
    rit := p.rit
    rit_freq := p.rit_freq
    time_diff := td
    drift := drift
    residual_doppler := rd
    dop_up_rate := p.dop_up_rate
    dop_down_rate := p.dop_down_rate }

/-- The data rows of `export_pass` for a pass group: one row per
telemetry-bearing member, in order, others skipped. -/
def export_pass_rows (center_drift : Int) (g : List Combined) : List CsvRow :=
  g.filterMap (fun it => it.pycom.map (fun pt => mkRow center_drift it.echo pt.1 pt.2))

/-! ### Concrete fixtures for witnesses and counterexamples -/

/-- A concrete echo record. -/
def e0 : Echo :=
  { ts := 0
    ts_str := "250101_000000"
    tx_freq := 1296
    tx_offset := 1500
    rx_freq := 1297
    rx_offset := 1400
    dt := 0
    snr := -10
    message := "M0SNZ TEST" }

/-- A concrete telemetry sample parameterised by timestamp, frequencies and
satellite; the remaining fields are fixed plausible log values. -/
def p0 (t mainHz subHz : Int) (satName : String) : PycomEntry :=
  { ts := t
    sat := satName
    az := 180
    el := 45
    range_km := 800
    main := mainHz
    sub := subHz
    dop_up := 10
    dop_down := -20
    dop_up_rate := 1
    dop_down_rate := -1
    offset := 0
    rit := "OFF"
    rit_freq := 0 }

/-- A concrete transmission record. -/
def tx1 : WsjtEntry :=
  { ts := 0
    ts_str := "250101_000000"
    freq := 1296
    mode := "Q65"
    snr := 0
    dt := 0
    f := 1500
    msg := "M0SNZ TEST" }

/-- A concrete reception record exactly one second after `tx1`, matching it in
mode, message and (distinct) frequency. -/
def rx1 : WsjtEntry :=
  { ts := 1
    ts_str := "250101_000001"
    freq := 1297
    mode := "Q65"
    snr := -12
    dt := 3
    f := 1400
    msg := "M0SNZ TEST" }

/-- A concrete telemetry list: nearest sample 3 seconds from `e0`, the other
30 seconds away. -/
def pList : List PycomEntry := [p0 3 0 0 "RS-44", p0 30 0 0 "RS-44"]

/-- A telemetry-bearing combined item whose computed drift is exactly `d`
(zero main and sub frequencies, receive audio offset `d`, transmit audio
offset 0). -/
def demoItem (t d : Int) : Combined :=
  { echo := { e0 with ts := t, rx_offset := d, tx_offset := 0 }
    pycom := some (p0 t 0 0 "RS-44", 0) }

/-- A three-member pass group with member drifts 0, 600, 0: the first/last
computation gives centre drift 0 while the mean of all drifts is 200. -/
def demoGroup : List Combined := [demoItem 0 0, demoItem 60 600, demoItem 120 0]

/-- The rejected alternative computation that the spec explicitly rules out
for `center_drift`: the mean of all valid members' drifts. -/
def meanDriftAlt (g : List Combined) : ℚ :=
  ((valid_items g).map (fun it => (itemDrift it : ℚ))).sum /
    ((valid_items g).length : ℚ)

/-- A pass group with a single telemetry-bearing member, used to instantiate
the export-row property. -/
def g7 : List Combined :=
  [{ echo := e0, pycom := some (p0 2 435000000 145900000 "RS-44", 2) }]

/-- The row `export_pass` writes for the single member of `g7`. -/
def row7 : CsvRow :=
  mkRow (calculate_pass_stats g7).center_drift e0
    (p0 2 435000000 145900000 "RS-44") 2

/-- A single-member pass group anchored at second 1000, for the track
extraction witness. -/
def g6 : List Combined :=
  [{ echo := { e0 with ts := 1000 }, pycom := some (p0 1000 0 0 "RS-44", 0) }]

/-- A telemetry sample below the horizon (negative elevation) inside the
window of `g6`. -/
def pNeg : PycomEntry := { p0 700 0 0 "RS-44" with el := -5 }

/-- A telemetry log around `g6`: two in-window same-satellite samples (one
below the horizon), one out-of-window sample, one other-satellite sample. -/
def allP6 : List PycomEntry :=
  [pNeg, p0 1200 0 0 "RS-44", p0 5000 0 0 "RS-44", p0 900 0 0 "AO-73"]

/-! ### Helper lemmas -/

lemma groupGo_flatten (rest : List Combined) :
    ∀ prev acc, (groupGo prev acc rest).flatten = acc.reverse ++ rest := by
  induction rest with
  | nil => intro prev acc; simp [groupGo]
  | cons c rest ih =>
    intro prev acc
    by_cases h : continuesPass prev c
    · simp [groupGo, h, ih]
    · simp [groupGo, h, ih]

lemma groupGo_ne_nil (rest : List Combined) :
    ∀ prev acc, acc ≠ [] → ∀ p ∈ groupGo prev acc rest, p ≠ [] := by
  induction rest with
  | nil =>
    intro prev acc hacc p hp
    have hpe : p = acc.reverse := by simpa [groupGo] using hp
    simpa [hpe] using hacc
  | cons c rest ih =>
    intro prev acc hacc p hp
    by_cases h : continuesPass prev c
    · simp only [groupGo, h, if_pos] at hp
      exact ih c (c :: acc) (List.cons_ne_nil c acc) p hp
    · have hp' : p = acc.reverse ∨ p ∈ groupGo c [c] rest := by
        simpa [groupGo, h] using hp
      rcases hp' with rfl | hp'
      · simpa using hacc
      · exact ih c [c] (List.cons_ne_nil c []) p hp'

lemma insertBy_perm {α : Type} (key : α → Int) (a : α) (l : List α) :
    List.Perm (insertBy key a l) (a :: l) := by
  induction l with
  | nil => exact List.Perm.refl _
  | cons b bs ih =>
    by_cases h : key a ≤ key b
    · simp [insertBy, h]
    · simp only [insertBy, h, if_neg, not_false_iff]
      exact (List.Perm.cons b ih).trans (List.Perm.swap a b bs)

lemma sortBy_perm {α : Type} (key : α → Int) (l : List α) :
    List.Perm (sortBy key l) l := by
  induction l with
  | nil => exact List.Perm.refl _
  | cons x xs ih => exact (insertBy_perm key x (sortBy key xs)).trans (List.Perm.cons x ih)

lemma sortBy_eq_nil {α : Type} (key : α → Int) (l : List α) :
    sortBy key l = [] ↔ l = [] := by
  constructor
  · intro h
    have hl := (sortBy_perm key l).length_eq
    rw [h] at hl
    exact List.length_eq_zero.mp hl.symm
  · rintro rfl; rfl

lemma find?_eq_some_decomp {α : Type} (p : α → Bool) (l : List α) (x : α) :
    l.find? p = some x ↔
      ∃ l₁ l₂, l = l₁ ++ x :: l₂ ∧ p x = true ∧ ∀ y ∈ l₁, p y = false := by
  induction l with
  | nil =>
    simp only [List.find?_nil]
    constructor
    · intro h; cases h
    · rintro ⟨l₁, l₂, heq, -, -⟩
      exact absurd heq.symm (List.append_ne_nil_of_right_ne_nil l₁ (List.cons_ne_nil x l₂))
  | cons a as ih =>
    by_cases h : p a
    · rw [List.find?_cons_of_pos _ h]
      constructor
      · intro h'
        injection h' with h'
        subst h'
        exact ⟨[], as, rfl, h, by simp⟩
      · rintro ⟨l₁, l₂, heq, hx, hall⟩
        cases l₁ with
        | nil =>
          simp only [List.nil_append, List.cons.injEq] at heq
          rw [heq.1]
        | cons b bs =>
          simp only [List.cons_append, List.cons.injEq] at heq
          have hb := hall b (by simp)
          rw [heq.1] at h
          rw [hb] at h
          cases h
    · rw [List.find?_cons_of_neg _ h, ih]
      constructor
      · rintro ⟨l₁, l₂, rfl, hx, hall⟩
        refine ⟨a :: l₁, l₂, rfl, hx, ?_⟩
        intro y hy
        rcases List.mem_cons.mp hy with rfl | hy
        · exact Bool.eq_false_iff.mpr h
        · exact hall y hy
      · rintro ⟨l₁, l₂, heq, hx, hall⟩
        cases l₁ with
        | nil =>
          simp only [List.nil_append, List.cons.injEq] at heq
          rw [heq.1] at h
          exact absurd hx h
        | cons b bs =>
          simp only [List.cons_append, List.cons.injEq] at heq
          refine ⟨bs, l₂, heq.2, hx, ?_⟩
          intro y hy
          exact hall y (by simp [hy])

lemma prefChars_iff (p : List Char) :
    ∀ s, prefChars p s = true ↔ ∃ t, p ++ t = s := by
  induction p with
  | nil => intro s; simp [prefChars]
  | cons a as ih =>
    intro s
    cases s with
    | nil => simp [prefChars]
    | cons b bs =>
      simp only [prefChars, Bool.and_eq_true, beq_iff_eq, ih, List.cons_append,
        List.cons.injEq]
      constructor
      · rintro ⟨rfl, t, rfl⟩; exact ⟨t, rfl, rfl⟩
      · rintro ⟨t, rfl, rfl⟩; exact ⟨rfl, t, rfl⟩

lemma hasSub_iff (p : List Char) :
    ∀ s, hasSub p s = true ↔ ∃ u v, u ++ p ++ v = s := by
  intro s
  induction s with
  | nil =>
    simp only [hasSub, List.isEmpty_iff]
    constructor
    · rintro rfl; exact ⟨[], [], rfl⟩
    · rintro ⟨u, v, huv⟩
      rcases List.append_eq_nil.mp huv with ⟨h1, rfl⟩
      exact (List.append_eq_nil.mp h1).2
  | cons c cs ih =>
    simp only [hasSub, Bool.or_eq_true, prefChars_iff, ih]
    constructor
    · rintro (⟨t, ht⟩ | ⟨u, v, huv⟩)
      · exact ⟨[], t, by simp [ht]⟩
      · exact ⟨c :: u, v, by simp [huv]⟩
    · rintro ⟨u, v, huv⟩
      cases u with
      | nil => exact Or.inl ⟨v, by simpa using huv⟩
      | cons d ds =>
        simp only [List.cons_append, List.cons.injEq] at huv
        exact Or.inr ⟨ds, v, huv.2⟩

lemma head_eq_of_eq {α : Type} {l : List α} {a : α} {as : List α}
    (hl : l = a :: as) (h : l ≠ []) : l.head h = a := by
  subst hl; rfl

lemma getLast_eq_of_eq {α : Type} {l : List α} {a : α} {as : List α}
    (hl : l = a :: as) (h : l ≠ []) :
    l.getLast h = (a :: as).getLast (List.cons_ne_nil a as) := by
  subst hl; rfl

lemma argminAbs_cons (t : Int) (p : PycomEntry) (ps : List PycomEntry) :
    argminAbs t (p :: ps) =
      (match argminAbs t ps with
       | none => some p
       | some q => if |q.ts - t| < |p.ts - t| then some q else some p) := rfl

lemma argminAbs_spec (t : Int) (l : List PycomEntry) (h : l ≠ []) :
    ∃ i, ∃ hi : i < l.length, argminAbs t l = some (l.get ⟨i, hi⟩) ∧
      (∀ j, ∀ hj : j < l.length,
        |(l.get ⟨i, hi⟩).ts - t| ≤ |(l.get ⟨j, hj⟩).ts - t|) ∧
      (∀ j, ∀ hj : j < l.length, j < i →
        |(l.get ⟨i, hi⟩).ts - t| < |(l.get ⟨j, hj⟩).ts - t|) := by
  induction l with
  | nil => exact absurd rfl h
  | cons p ps ih =>
    by_cases hps : ps = []
    · subst hps
      refine ⟨0, by simp, by simp [argminAbs], ?_, ?_⟩
      · intro j hj
        have hj0 : j = 0 := by simpa using hj
        subst hj0
        exact le_refl _
      · intro j hj hlt
        omega
    · obtain ⟨i, hi, heq, hmin, hfirst⟩ := ih hps
      by_cases hlt : |(ps.get ⟨i, hi⟩).ts - t| < |p.ts - t|
      · refine ⟨i + 1, by simpa using Nat.succ_lt_succ hi, ?_, ?_, ?_⟩
        · rw [argminAbs_cons, heq]
          show (if |(ps.get ⟨i, hi⟩).ts - t| < |p.ts - t|
                then some (ps.get ⟨i, hi⟩) else some p) = _
          rw [if_pos hlt]
          rfl
        · intro j hj
          cases j with
          | zero => simpa using le_of_lt hlt
          | succ j' =>
            have hj' : j' < ps.length := by simpa using hj
            simpa using hmin j' hj'
        · intro j hj hjlt
          cases j with
          | zero => simpa using hlt
          | succ j' =>
            have hj' : j' < ps.length := by simpa using hj
            have : j' < i := by omega
            simpa using hfirst j' hj' this
      · refine ⟨0, by simp, ?_, ?_, ?_⟩
        · rw [argminAbs_cons, heq]
          show (if |(ps.get ⟨i, hi⟩).ts - t| < |p.ts - t|
                then some (ps.get ⟨i, hi⟩) else some p) = _
          rw [if_neg hlt]
          rfl
        · intro j hj
          cases j with
          | zero => exact le_refl _
          | succ j' =>
            have hj' : j' < ps.length := by simpa using hj
            have h1 : |p.ts - t| ≤ |(ps.get ⟨i, hi⟩).ts - t| := le_of_not_lt hlt
            simpa using le_trans h1 (hmin j' hj')
        · intro j hj hjlt
          omega

/-- The spec's matching condition for one transmission/reception pair, stated
in its own words: identical operating mode, identical message text, absolute
time difference at most the 1-second tolerance, different carrier frequency,
and the callsign marker `M0SNZ` occurring as a substring of the message. -/
def EchoMatchSpec (tx rx : WsjtEntry) : Prop :=
  rx.mode = tx.mode ∧ rx.msg = tx.msg ∧ |rx.ts - tx.ts| ≤ 1 ∧
    rx.freq ≠ tx.freq ∧ ∃ u v, u ++ "M0SNZ".data ++ v = rx.msg.data

lemma echoCond_iff (tx rx : WsjtEntry) :
    echoCond tx rx = true ↔ EchoMatchSpec tx rx := by
  simp [echoCond, EchoMatchSpec, hasSub_iff, and_assoc]

/-! ### Claim theorems -/

/-- C2: a transmission yields an echo exactly when some reception record
satisfies the five match conditions; when it does, the echo is built from the
first qualifying reception record in list order, so each transmission
contributes at most one echo, and `find_echoes` is (up to the final sort by
timestamp) exactly the per-transmission collection of these optional echoes. -/
theorem find_echoes_first_match (txs rxs : List WsjtEntry) (tx : WsjtEntry) :
    ((echoFor tx rxs).isSome ↔ ∃ rx ∈ rxs, EchoMatchSpec tx rx) ∧
    (∀ e : Echo, echoFor tx rxs = some e ↔
      ∃ pre rx post, rxs = pre ++ rx :: post ∧ EchoMatchSpec tx rx ∧
        (∀ rx' ∈ pre, ¬ EchoMatchSpec tx rx') ∧ e = mkEcho tx rx) ∧
    List.Perm (find_echoes txs rxs) (txs.filterMap (fun t => echoFor t rxs)) := by
  refine ⟨?_, ?_, sortBy_perm _ _⟩
  · rw [echoFor, Option.isSome_map']
    rw [List.find?_isSome]
    constructor
    · rintro ⟨rx, hm, hc⟩; exact ⟨rx, hm, (echoCond_iff tx rx).mp hc⟩
    · rintro ⟨rx, hm, hc⟩; exact ⟨rx, hm, (echoCond_iff tx rx).mpr hc⟩
  · intro e
    rw [echoFor, Option.map_eq_some']
    constructor
    · rintro ⟨rx, hfind, rfl⟩
      obtain ⟨pre, post, rfl, hx, hall⟩ := (find?_eq_some_decomp _ _ _).mp hfind
      refine ⟨pre, rx, post, rfl, (echoCond_iff tx rx).mp hx, ?_, rfl⟩
      intro rx' h' hspec
      have hc := (echoCond_iff tx rx').mpr hspec
      rw [hall rx' h'] at hc
      cases hc
    · rintro ⟨pre, rx, post, rfl, hspec, hall, rfl⟩
      refine ⟨rx, (find?_eq_some_decomp _ _ _).mpr
        ⟨pre, post, rfl, (echoCond_iff tx rx).mpr hspec, ?_⟩, rfl⟩
      intro y hy
      cases hcy : echoCond tx y
      · rfl
      · exact absurd ((echoCond_iff tx y).mp hcy) (hall y hy)

/-- C5 counterexample: `find_echoes` accepts a reception record whose time
difference to the transmission is exactly the 1-second tolerance, so the
produced echo is not *strictly* within the tolerance of both parents. -/
theorem find_echoes_tolerance_not_strict :
    find_echoes [tx1] [rx1] = [mkEcho tx1 rx1] ∧ ¬(|rx1.ts - tx1.ts| < 1) := by
  constructor
  · decide
  · decide

/-- C5 (amended): every echo produced by `find_echoes` comes from a
transmission and a reception record whose absolute time difference is at most
(not strictly below) the 1-second tolerance, and the echo carries the
transmission's timestamp. -/
theorem find_echoes_tolerance (txs rxs : List WsjtEntry) (e : Echo)
    (h : e ∈ find_echoes txs rxs) :
    ∃ tx ∈ txs, ∃ rx ∈ rxs, e = mkEcho tx rx ∧ e.ts = tx.ts ∧
      |rx.ts - tx.ts| ≤ 1 := by
  rw [find_echoes] at h
  have h2 := (sortBy_perm _ _).mem_iff.mp h
  obtain ⟨tx, htx, hsome⟩ := List.mem_filterMap.mp h2
  rw [echoFor, Option.map_eq_some'] at hsome
  obtain ⟨rx, hfind, rfl⟩ := hsome
  have hmem := List.mem_of_find?_eq_some hfind
  have hcond := List.find?_some hfind
  have hts : |rx.ts - tx.ts| ≤ 1 := by
    have := (echoCond_iff tx rx).mp hcond
    exact this.2.2.1
  exact ⟨tx, htx, rx, hmem, rfl, rfl, hts⟩

/-- C5 witness: the amended bound instantiated at the boundary pair. -/
theorem find_echoes_tolerance_witness :
    mkEcho tx1 rx1 ∈ find_echoes [tx1] [rx1] ∧
      ∃ tx ∈ [tx1], ∃ rx ∈ [rx1], mkEcho tx1 rx1 = mkEcho tx rx ∧
        (mkEcho tx1 rx1).ts = tx.ts ∧ |rx.ts - tx.ts| ≤ 1 :=
  ⟨by decide, find_echoes_tolerance [tx1] [rx1] (mkEcho tx1 rx1) (by decide)⟩

/-- C3: on a non-empty telemetry list, `match_echo_to_pycom` picks the sample
of minimum absolute time difference to the echo (first-encountered minimum on
ties) and returns it with that difference exactly when the difference is
strictly below 5 seconds — in particular a nearest sample at exactly 5 seconds
yields no match. -/
theorem match_echo_to_pycom_nearest (e : Echo) (l : List PycomEntry)
    (h : l ≠ []) :
    ∃ i, ∃ hi : i < l.length,
      (∀ j, ∀ hj : j < l.length,
        |(l.get ⟨i, hi⟩).ts - e.ts| ≤ |(l.get ⟨j, hj⟩).ts - e.ts|) ∧
      (∀ j, ∀ hj : j < l.length, j < i →
        |(l.get ⟨i, hi⟩).ts - e.ts| < |(l.get ⟨j, hj⟩).ts - e.ts|) ∧
      match_echo_to_pycom e l =
        (if |(l.get ⟨i, hi⟩).ts - e.ts| < 5
         then some (l.get ⟨i, hi⟩, |(l.get ⟨i, hi⟩).ts - e.ts|)
         else none) := by
  obtain ⟨i, hi, heq, hmin, hfirst⟩ := argminAbs_spec e.ts l h
  refine ⟨i, hi, hmin, hfirst, ?_⟩
  rw [match_echo_to_pycom, heq]

/-- C3 witness: the nearest-sample selection instantiated on `pList`. -/
theorem match_echo_to_pycom_nearest_witness :
    pList ≠ [] ∧
      (∃ i, ∃ hi : i < pList.length,
        (∀ j, ∀ hj : j < pList.length,
          |(pList.get ⟨i, hi⟩).ts - e0.ts| ≤ |(pList.get ⟨j, hj⟩).ts - e0.ts|) ∧
        (∀ j, ∀ hj : j < pList.length, j < i →
          |(pList.get ⟨i, hi⟩).ts - e0.ts| < |(pList.get ⟨j, hj⟩).ts - e0.ts|) ∧
        match_echo_to_pycom e0 pList =
          (if |(pList.get ⟨i, hi⟩).ts - e0.ts| < 5
           then some (pList.get ⟨i, hi⟩, |(pList.get ⟨i, hi⟩).ts - e0.ts|)
           else none)) :=
  ⟨by decide, match_echo_to_pycom_nearest e0 pList (by decide)⟩

/-- C4: in `group_by_pass`, a consecutive pair continues the current pass
exactly when the time gap is at most 30 minutes and, whenever both members
carry telemetry, the satellite identifiers agree; in particular two
telemetry-bearing echoes of different satellites split even at gap 0, and a
pair with telemetry missing on either side is judged on the gap alone. -/
theorem group_by_pass_continuation (prev curr : Combined) :
    (continuesPass prev curr = true ↔
      (curr.echo.ts - prev.echo.ts ≤ 1800 ∧
        ∀ pp tp cp tc, prev.pycom = some (pp, tp) → curr.pycom = some (cp, tc) →
          pp.sat = cp.sat)) ∧
    (∀ acc rest, groupGo prev acc (curr :: rest) =
      if continuesPass prev curr then groupGo curr (curr :: acc) rest
      else acc.reverse :: groupGo curr [curr] rest) ∧
    group_by_pass [prev, curr] =
      (if continuesPass prev curr then [[prev, curr]] else [[prev], [curr]]) := by
  refine ⟨?_, fun acc rest => rfl, ?_⟩
  · rcases hp : prev.pycom with _ | ⟨pp, tp⟩ <;>
      rcases hc : curr.pycom with _ | ⟨cp, tc⟩ <;>
      simp [continuesPass, hp, hc] <;> aesop
  · by_cases h : continuesPass prev curr <;> simp [group_by_pass, groupGo, h]

/-- C8: for a non-empty pass group with no telemetry-bearing member,
`calculate_pass_stats` returns exactly the minimal record — the echo count,
the descriptive note, and `center_drift = 0` — and nothing else. -/
theorem calculate_pass_stats_no_sat (g : List Combined) (h : g ≠ [])
    (h2 : valid_items g = []) :
    calculate_pass_stats g =
      PassStats.minimal g.length "No satellite data available" 0 := by
  rcases g with _ | ⟨x, xs⟩
  · exact absurd rfl h
  · simp only [calculate_pass_stats]
    rw [h2]

/-- C8 witness: a one-element group without telemetry yields the minimal
record. -/
theorem calculate_pass_stats_no_sat_witness :
    calculate_pass_stats [{ echo := e0, pycom := none }] =
      PassStats.minimal 1 "No satellite data available" 0 :=
  calculate_pass_stats_no_sat [{ echo := e0, pycom := none }]
    (by decide) (by decide)

/-- C9: `group_by_pass` maps the empty echo list to the empty pass list and a
singleton echo list to a single pass holding exactly that echo. -/
theorem group_by_pass_empty_single :
    group_by_pass ([] : List Combined) = [] ∧
      ∀ x : Combined, group_by_pass [x] = [[x]] :=
  ⟨rfl, fun _ => rfl⟩

/-- C1: for a pass group with at least one telemetry-bearing member,
`calculate_pass_stats` computes `center_drift` as the rounded half-sum of the
drifts of the first and the last telemetry-bearing member in list order —
and, as the `demoGroup` instance shows, this differs from the mean of all
members' drifts. -/
theorem calculate_pass_stats_center_drift (g : List Combined)
    (h : valid_items g ≠ []) :
    (calculate_pass_stats g).center_drift =
      pyRoundHalf (itemDrift ((valid_items g).head h) +
        itemDrift ((valid_items g).getLast h)) ∧
    (calculate_pass_stats demoGroup).center_drift = 0 ∧
    meanDriftAlt demoGroup = 200 := by
  refine ⟨?_, by decide, ?_⟩
  · cases g with
    | nil => exact absurd rfl h
    | cons x xs =>
      have hex : ∃ v0 vs, valid_items (x :: xs) = v0 :: vs := by
        cases hvv : valid_items (x :: xs) with
        | nil => exact absurd hvv h
        | cons a as => exact ⟨a, as, rfl⟩
      obtain ⟨v0, vs, hv⟩ := hex
      rw [head_eq_of_eq hv h, getLast_eq_of_eq hv h]
      simp only [calculate_pass_stats]
      rw [hv]
      simp [PassStats.center_drift]
  · norm_num [meanDriftAlt, demoGroup, demoItem, valid_items, itemDrift, p0, e0]

/-- C1 witness: the centre-drift formula instantiated on `demoGroup`. -/
theorem calculate_pass_stats_center_drift_witness :
    valid_items demoGroup ≠ [] ∧
      ((calculate_pass_stats demoGroup).center_drift =
        pyRoundHalf (itemDrift ((valid_items demoGroup).head (by decide)) +
          itemDrift ((valid_items demoGroup).getLast (by decide))) ∧
       (calculate_pass_stats demoGroup).center_drift = 0 ∧
       meanDriftAlt demoGroup = 200) :=
  ⟨by decide, calculate_pass_stats_center_drift demoGroup (by decide)⟩

/-- C7: every telemetry-bearing row in a pass's exported tabular output has
`Drift = main + rx_offset + sub - tx_offset - center_drift` and
`ResidualDoppler = Drift - dop_up - dop_down`, with `center_drift` the pass's
statistic. -/
theorem export_pass_rows_columns (g : List Combined) (row : CsvRow)
    (h : row ∈ export_pass_rows (calculate_pass_stats g).center_drift g) :
    row.drift = row.main + row.rx_offset + row.sub - row.tx_offset -
      (calculate_pass_stats g).center_drift ∧
    row.residual_doppler = row.drift - row.dop_up - row.dop_down := by
  obtain ⟨it, hit, hsome⟩ := List.mem_filterMap.mp h
  rw [Option.map_eq_some'] at hsome
  obtain ⟨pt, hpt, rfl⟩ := hsome
  exact ⟨by simp [mkRow], by simp [mkRow]⟩

/-- C7 witness: the column identities on the concrete exported row of `g7`. -/
theorem export_pass_rows_columns_witness :
    row7 ∈ export_pass_rows (calculate_pass_stats g7).center_drift g7 ∧
      (row7.drift = row7.main + row7.rx_offset + row7.sub - row7.tx_offset -
        (calculate_pass_stats g7).center_drift ∧
       row7.residual_doppler = row7.drift - row7.dop_up - row7.dop_down) :=
  ⟨by decide, export_pass_rows_columns g7 row7 (by decide)⟩

/-- C6: for a pass with telemetry-bearing members, `extract_full_pass_track`
keeps exactly the telemetry samples of the first (time-sorted) member's
satellite whose timestamp lies in the closed window from 10 minutes before
the first valid echo to 10 minutes after the last; samples with negative
elevation are kept with their elevation reported as exactly 0; and fewer than
2 surviving points gives an absent result, not an error. -/
theorem extract_full_pass_track_window (g : List Combined)
    (allPycom : List PycomEntry) (h : valid_items g ≠ []) :
    ∃ v0 vs, sortBy (fun it => it.echo.ts) (valid_items g) = v0 :: vs ∧
      (let sat := itemSat v0
       let ws := v0.echo.ts - 600
       let we := ((v0 :: vs).getLast (List.cons_ne_nil v0 vs)).echo.ts + 600
       let kept := allPycom.filter (fun p =>
         p.sat == sat && decide (ws ≤ p.ts) && decide (p.ts ≤ we))
       (extract_full_pass_track g allPycom =
          if (kept.map clipPoint).length < 2 then none
          else some (kept.map clipPoint, v0.echo.ts,
            ((v0 :: vs).getLast (List.cons_ne_nil v0 vs)).echo.ts, sat)) ∧
       (∀ p : PycomEntry, p ∈ kept ↔
          p ∈ allPycom ∧ p.sat = sat ∧ ws ≤ p.ts ∧ p.ts ≤ we) ∧
       (kept.map clipPoint).length = kept.length ∧
       (∀ p ∈ kept, 0 ≤ (clipPoint p).el ∧
          (p.el < 0 → (clipPoint p).el = 0) ∧
          (0 ≤ p.el → (clipPoint p).el = p.el))) := by
  have hs : sortBy (fun it => it.echo.ts) (valid_items g) ≠ [] :=
    fun hnil => h ((sortBy_eq_nil _ _).mp hnil)
  rcases hv : sortBy (fun it => it.echo.ts) (valid_items g) with _ | ⟨v0, vs⟩
  · exact absurd hv hs
  · refine ⟨v0, vs, hv, ?_, ?_, ?_, ?_⟩
    · rw [extract_full_pass_track.eq_def, hv]
    · intro p
      rw [List.mem_filter]
      simp [Bool.and_assoc, and_assoc]
    · exact List.length_map _ _
    · intro p hp
      refine ⟨?_, ?_, ?_⟩
      · simpa [clipPoint] using le_max_right p.el 0
      · intro hneg
        simp [clipPoint, max_eq_right (le_of_lt hneg)]
      · intro hpos
        simp [clipPoint, max_eq_left hpos]

/-- C6 witness: track extraction on `g6` and `allP6` — the window keeps the
two same-satellite in-window samples, the below-horizon one clipped to 0. -/
theorem extract_full_pass_track_window_witness :
    valid_items g6 ≠ [] ∧
      (∃ v0 vs, sortBy (fun it => it.echo.ts) (valid_items g6) = v0 :: vs ∧
        (let sat := itemSat v0
         let ws := v0.echo.ts - 600
         let we := ((v0 :: vs).getLast (List.cons_ne_nil v0 vs)).echo.ts + 600
         let kept := allP6.filter (fun p =>
           p.sat == sat && decide (ws ≤ p.ts) && decide (p.ts ≤ we))
         (extract_full_pass_track g6 allP6 =
            if (kept.map clipPoint).length < 2 then none
            else some (kept.map clipPoint, v0.echo.ts,
              ((v0 :: vs).getLast (List.cons_ne_nil v0 vs)).echo.ts, sat)) ∧
         (∀ p : PycomEntry, p ∈ kept ↔
            p ∈ allP6 ∧ p.sat = sat ∧ ws ≤ p.ts ∧ p.ts ≤ we) ∧
         (kept.map clipPoint).length = kept.length ∧
         (∀ p ∈ kept, 0 ≤ (clipPoint p).el ∧
            (p.el < 0 → (clipPoint p).el = 0) ∧
            (0 ≤ p.el → (clipPoint p).el = p.el)))) :=
  ⟨by decide, extract_full_pass_track_window g6 allP6 (by decide)⟩

/-- C10: the passes produced by `group_by_pass` concatenate back to the input
list (every echo lands in exactly one pass, order preserved) and every pass is
non-empty. -/
theorem group_by_pass_partition (l : List Combined) :
    (group_by_pass l).flatten = l ∧ ∀ p ∈ group_by_pass l, p ≠ [] := by
  rcases l with _ | ⟨x, xs⟩
  · exact ⟨rfl, by simp [group_by_pass]⟩
  · refine ⟨?_, groupGo_ne_nil xs x [x] (List.cons_ne_nil x []) ⟩
    simpa using groupGo_flatten xs x [x]

end SatAnalysis
